import Mathlib

/-!
Verification development for the Google-Sheets integration plugin
(`src/index.ts`).  The row/column projection engine is embedded shallowly:
JavaScript objects become association lists in insertion order, JavaScript
arrays with holes become lists of `Option` cells, thrown `IntegrationError`s
become `Except` errors, and the remote spreadsheet client becomes an explicit
`fetch : String → Option grid` parameter together with a log of the ranges
that were requested.
-/

namespace GSheets

/-- A record as handed to / produced by the plugin: a JavaScript object,
modelled as an association list in key-insertion order.  JavaScript object
keys are unique, which callers state as a `Nodup` hypothesis where needed. -/
abbrev JsRec (α : Type) := List (String × α)

/-- Mirrors `class SheetColumn { name; type; sourceColumnIndex }`. -/
structure SheetColumn where
  name : String
  type : String
  sourceColumnIndex : Nat
deriving DecidableEq, Repr

/-- Errors surfaced by the embedded plugin code.
`integration` mirrors a thrown `IntegrationError` message;
`unexpectedKey` mirrors the `IntegrationError` thrown by `dataToCells`
(carrying the offending key and the list of column names the message
enumerates, i.e. `columns.filter(c => c.name).map(c => c.name)`);
`typeError` marks a JavaScript `TypeError` crash (e.g. reading a property
of `undefined`). -/
inductive PluginError where
  | integration (msg : String)
  | unexpectedKey (key : String) (expectedKeys : List String)
  | typeError
deriving DecidableEq, Repr

/-- Mirrors `GoogleSheetsFormatType` from the shared library.  The read
path receives it and passes it along unused (as the source does). -/
inductive GoogleSheetsFormatType where
  | FORMATTED_VALUE
  | EFFECTIVE_VALUE
  | USER_ENTERED_VALUE
deriving DecidableEq, Repr

/-- Mirrors `toExcelColumnName(columnIndex)`: the placeholder label
`column${columnIndex}` (the TODO Excel-name conversion never happened). -/
def toExcelColumnName (columnIndex : Nat) : String :=
  "column" ++ toString columnIndex

/-- JavaScript object assignment `obj[k] = v`: if the key is already
present its value is replaced (keeping the key's original position),
otherwise the key is appended. -/
def upsert : JsRec α → String → α → JsRec α
  | [], k, v => [(k, v)]
  | p :: rest, k, v => if p.1 == k then (k, v) :: rest else p :: upsert rest k v

/-- JavaScript array assignment `a[i] = v`: replaces in range, extends the
array with holes (`none`) when `i` is past the end. -/
def setAt : List (Option α) → Nat → α → List (Option α)
  | [], 0, v => [some v]
  | [], i + 1, v => none :: setAt [] i v
  | _ :: rest, 0, v => some v :: rest
  | c :: rest, i + 1, v => c :: setAt rest i v

/-- JavaScript array read `a[j]` on an array of optional cells: out of
range and holes both give `undefined` (`none`). -/
def joinGet (l : List (Option α)) (j : Nat) : Option α :=
  l.getD j none

/-- The column names enumerated by the `dataToCells` error message:
`columns.filter((c) => c.name).flatMap((c) => `"${c.name}"`)` — JavaScript
string truthiness drops columns whose name is the empty string. -/
def expectedNames (columns : List SheetColumn) : List String :=
  (columns.filter (fun c => !(c.name == ""))).map (fun c => c.name)

/-- The repeated push pattern
`columns.push({ name: cellData, type: 'sheet', sourceColumnIndex: columns.length })`. -/
def pushColumn (columns : List SheetColumn) (cellData : String) : List SheetColumn :=
  columns ++ [⟨cellData, "sheet", columns.length⟩]

/-- Mirrors `extractDataColumns(data)`: the union of all record keys in
first-seen order, each becoming a column at the next index. -/
def extractDataColumns (data : List (JsRec α)) : List SheetColumn :=
  if data.isEmpty then [] else
  let keys : List String :=
    data.foldl
      (fun acc row => row.foldl
        (fun acc p => if acc.contains p.1 then acc else acc ++ [p.1]) acc)
      []
  keys.foldl pushColumn []

/-- Models JavaScript's `String.prototype.toLowerCase()` character-wise
(kernel-computable, unlike `String.toLower`). -/
def jsToLower (s : String) : String := ⟨s.data.map Char.toLower⟩

/-- The row-building loop of `dataToCells`: iterates a record's keys in
insertion order; with a non-empty column list each value lands at the
case-insensitively matching column's `sourceColumnIndex` (first match
wins), an unmatched key throws; with an empty column list values are
pushed in encountered order. -/
def dataToCellsRow (columns : List SheetColumn) :
    JsRec α → List (Option α) → Except PluginError (List (Option α))
  | [], rowValues => .ok rowValues
  | (key, v) :: rest, rowValues =>
    if columns.length > 0 then
      match columns.find? (fun c => jsToLower c.name == jsToLower key) with
      | none => .error (.unexpectedKey key (expectedNames columns))
      | some c => dataToCellsRow columns rest (setAt rowValues c.sourceColumnIndex v)
    else
      dataToCellsRow columns rest (rowValues ++ [some v])

/-- Mirrors `dataToCells(data, columns)`: project records to a raw grid;
the first unmatched key aborts the whole call. -/
def dataToCells (data : List (JsRec α)) (columns : List SheetColumn) :
    Except PluginError (List (List (Option α))) :=
  match data with
  | [] => .ok []
  | r :: rest => do
    let row ← dataToCellsRow columns r []
    let rows ← dataToCells rest columns
    .ok (row :: rows)

/-- The name used for the cell at absolute column position `j`:
`sheetColumns[j].name` when that index exists, else the generated
placeholder label. -/
def colNameAt (sheetColumns : List SheetColumn) (j : Nat) : String :=
  match sheetColumns.get? j with
  | some c => c.name
  | none => toExcelColumnName j

/-- The inner loop of `sheetDataToRecordSet` over one grid row: walks the
cells with their running index, skipping `undefined` cells and assigning
`currentRow[columnName] = cellData` for the rest. -/
def projRowAux (sheetColumns : List SheetColumn) (offset : Nat) :
    List (Option α) → Nat → JsRec α → JsRec α
  | [], _, currentRow => currentRow
  | cell :: rest, cellIndex, currentRow =>
    match cell with
    | some v =>
      projRowAux sheetColumns offset rest (cellIndex + 1)
        (upsert currentRow (colNameAt sheetColumns (cellIndex + offset)) v)
    | none => projRowAux sheetColumns offset rest (cellIndex + 1) currentRow

/-- Mirrors `sheetDataToRecordSet(sheetData, format, sheetColumns,
columnNamesOffset)`: one record per grid row.  `format` is received and
ignored exactly as in the source. -/
def sheetDataToRecordSet (sheetData : List (List (Option α)))
    (_format : GoogleSheetsFormatType) (sheetColumns : List SheetColumn)
    (columnNamesOffset : Nat) : List (JsRec α) :=
  sheetData.map (fun row => projRowAux sheetColumns columnNamesOffset row 0 [])

/-- Mirrors `extractSheetColumns`: `values` is the (optional) result of the
`values.get` fetch for `A${headerRowNumber ?? 1}:ZZZ10000000`.  The source
tests `if (headerRowNumber && !values)` — for an empty array `!values` is
`false`, so `values[0].forEach` then crashes with a `TypeError`. -/
def extractSheetColumns (headerRowNumber : Option Nat)
    (values : Option (List (List String))) :
    Except PluginError (List SheetColumn) :=
  match values with
  | none =>
    if headerRowNumber.isSome then
      .error (.integration
        ("The specifed row number(" ++ toString (headerRowNumber.getD 1)
          ++ ") doesn't have a header."))
    else
      .ok []
  | some vs =>
    match vs with
    | [] => .error .typeError
    | v0 :: _ => .ok (v0.foldl pushColumn [])

/-- Mirrors `extractAllColumns`: header columns (only when the fetch
returned exactly one row) merged with record keys; a key is appended as a
new column unless some column's name equals it **exactly**
(`column.name === key`), with `sourceColumnIndex: missingColumnsIndex++`
kept as separate counter state as in the source. -/
def extractAllColumns (values : Option (List (List String)))
    (jsonData : List (JsRec α)) : List SheetColumn :=
  let columns : List SheetColumn :=
    match values with
    | some vs => if vs.length == 1 then (vs.getD 0 []).foldl pushColumn [] else []
    | none => []
  let st :=
    jsonData.foldl
      (fun (st : List SheetColumn × Nat) row =>
        row.foldl
          (fun st p =>
            if (st.1.find? (fun column => column.name == p.1)).isSome then st
            else (st.1 ++ [⟨p.1, "sheet", st.2⟩], st.2 + 1))
          st)
      (columns, columns.length)
  st.1

/-- The sentinel maximal range `ZZZ10000000` (`MAX_A1_RANGE`). -/
def MAX_A1_RANGE : String := "ZZZ10000000"

/-- The sentinel maximal column `ZZZ` (`MAX_COLUMN`). -/
def MAX_COLUMN : String := "ZZZ"

/-- A parsed A1 range: start/end column and row, 1-based.  A single cell
is the degenerate rectangle with equal corners. -/
structure A1Rng where
  c1 : Nat
  r1 : Nat
  c2 : Nat
  r2 : Nat
deriving DecidableEq, Repr

/-- `a1Range.getRow()`. -/
def A1Rng.getRow (g : A1Rng) : Nat := g.r1

/-- `a1Range.getCol()`. -/
def A1Rng.getCol (g : A1Rng) : Nat := g.c1

/-- `a1Range.getHeight()`: number of rows spanned. -/
def A1Rng.getHeight (g : A1Rng) : Nat := g.r2 + 1 - g.r1

/-- `a1Range.removeY(-1)`: drops the top row (start row advanced by one). -/
def A1Rng.removeYTop (g : A1Rng) : A1Rng := { g with r1 := g.r1 + 1 }

/-- The interface the plugin uses from the external `@flighter/a1-notation`
dependency: a parser (`A1.isValid` / `new A1(...)`) and a serializer
(`toString`).  The plugin's own behaviour is proved for every such library;
concrete witnesses use `specA1` below. -/
structure A1Lib where
  parse : String → Option A1Rng
  toStr : A1Rng → String

/-- `A1.isValid(range)`: modelled as parser success. -/
def A1Lib.isValid (a1 : A1Lib) (range : String) : Bool :=
  (a1.parse range).isSome

/-- Bijective base-26 column letters, fuelled so that the kernel can
evaluate it (the fuel argument strictly dominates the column number). -/
def lettersOfColFuel : Nat → Nat → String
  | _, 0 => ""
  | 0, _ + 1 => ""
  | fuel + 1, n + 1 =>
    lettersOfColFuel fuel (n / 26) ++ String.singleton (Char.ofNat ('A'.toNat + n % 26))

/-- Bijective base-26 column letters: 1 ↦ "A", 26 ↦ "Z", 27 ↦ "AA". -/
def lettersOfCol (n : Nat) : String := lettersOfColFuel n n

/-- Splits a character sequence on ':' — the textual range separator. -/
def splitOnColon : List Char → List (List Char)
  | [] => [[]]
  | c :: rest =>
    if c = ':' then [] :: splitOnColon rest
    else
      match splitOnColon rest with
      | g :: gs => (c :: g) :: gs
      | [] => [[c]]

/-- Column letters to column number: "A" ↦ 1, "AA" ↦ 27. -/
def colOfLetters (cs : List Char) : Nat :=
  cs.foldl (fun acc c => 26 * acc + (c.toUpper.toNat + 1 - 'A'.toNat)) 0

/-- Modelled from the spec: parse one A1 cell reference (§4.1 "Range
Addressing", a component whose implementation is the external
a1-notation dependency, absent from `src/`): column letters (either
case) followed by a positive row number. -/
def parseCell (cs : List Char) : Option (Nat × Nat) :=
  let letters := cs.takeWhile Char.isAlpha
  let digits := cs.drop letters.length
  if letters.isEmpty || digits.isEmpty then none
  else if !digits.all Char.isDigit then none
  else
    let row := digits.foldl (fun acc c => 10 * acc + (c.toNat - '0'.toNat)) 0
    if row == 0 then none else some (colOfLetters letters, row)

/-- Modelled from the spec: parse a full A1 range expression — a single
cell or `cell:cell` (§4.1). -/
def parseA1 (s : String) : Option A1Rng :=
  match splitOnColon s.data with
  | [a] => (parseCell a).map (fun p => ⟨p.1, p.2, p.1, p.2⟩)
  | [a, b] =>
    match parseCell a, parseCell b with
    | some p, some q => some ⟨p.1, p.2, q.1, q.2⟩
    | _, _ => none
  | _ => none

/-- Modelled from the spec: canonical serialization of a parsed range
(upper-case letters, no leading zeros; a degenerate rectangle prints as a
single cell).  Lower-case input such as "a1:D4" is parseable but does not
round-trip — exactly the non-canonical forms §4.1/§8 of the spec talk
about. -/
def a1ToString (g : A1Rng) : String :=
  let cell1 := lettersOfCol g.c1 ++ toString g.r1
  if g.c1 == g.c2 && g.r1 == g.r2 then cell1
  else cell1 ++ ":" ++ lettersOfCol g.c2 ++ toString g.r2

/-- Modelled from the spec: the concrete range-addressing library used to
instantiate witnesses and counterexamples. -/
def specA1 : A1Lib := ⟨parseA1, a1ToString⟩

/-- The range `extractSheetColumns` fetches inside `readFromSpreadsheet`:
`${sheetTitle}!A${headerRowNumber ?? 1}:ZZZ10000000` (the header row
number passed there is `1` or absent, so the row is always `1`). -/
def headerFetchRange (sheetTitle : String) : String :=
  sheetTitle ++ "!A1:" ++ MAX_A1_RANGE

/-- Mirrors `readFromSpreadsheet`.  The remote client's `values.get` is the
`fetch` parameter; the returned list records every range fetched, in
order, so that "no data fetch was issued" is a provable statement.
Grids returned by the remote are dense arrays, hence cells are wrapped in
`some` when handed to `sheetDataToRecordSet`. -/
def readFromSpreadsheet (a1 : A1Lib) (fetch : String → Option (List (List String)))
    (sheetTitle : String) (extractFirstRowHeader : Bool)
    (format : GoogleSheetsFormatType) (range : Option String) :
    Except PluginError (List (JsRec String)) × List String :=
  let hdrRange := headerFetchRange sheetTitle
  match extractSheetColumns (if extractFirstRowHeader then some 1 else none)
      (fetch hdrRange) with
  | .error e => (.error e, [hdrRange])
  | .ok columnNames =>
    let fetchData (dataRange : String) (columnNamesOffset : Nat) :
        Except PluginError (List (JsRec String)) × List String :=
      let result := ((fetch dataRange).getD []).map (fun row => row.map some)
      (.ok (sheetDataToRecordSet result format columnNames columnNamesOffset),
        [hdrRange, dataRange])
    match range with
    | some r =>
      if extractFirstRowHeader then
        match a1.parse r with
        | none => (.error .typeError, [hdrRange])
        | some a1Range =>
          if r != a1.toStr a1Range then
            (.error (.integration ("The provided range " ++ r ++ " is invalid")),
              [hdrRange])
          else if a1Range.getHeight == 1 && a1Range.getRow == 1 then
            (.ok (sheetDataToRecordSet [] format columnNames 0), [hdrRange])
          else
            let adjustedRange :=
              if a1Range.getRow == 1 then a1Range.removeYTop else a1Range
            fetchData (sheetTitle ++ "!" ++ a1.toStr adjustedRange)
              (a1Range.getCol - 1)
      else
        fetchData (sheetTitle ++ "!" ++ r) 0
    | none =>
      if extractFirstRowHeader then
        fetchData (sheetTitle ++ "!A2:" ++ MAX_A1_RANGE) 0
      else
        fetchData (sheetTitle ++ "!A1:" ++ MAX_A1_RANGE) 0

/-- The `READ_SPREADSHEET_RANGE` action: `validateReadRange` (reject a
present range failing `A1.isValid`, issuing no fetch) and then
`readFromSpreadsheet` with the range passed along. -/
def readSpreadsheetRange (a1 : A1Lib) (fetch : String → Option (List (List String)))
    (sheetTitle : String) (extractFirstRowHeader : Bool)
    (format : GoogleSheetsFormatType) (range : Option String) :
    Except PluginError (List (JsRec String)) × List String :=
  match range with
  | some r =>
    if !a1.isValid r then
      (.error (.integration ("The provided range " ++ r ++ " is invalid")), [])
    else
      readFromSpreadsheet a1 fetch sheetTitle extractFirstRowHeader format (some r)
  | none => readFromSpreadsheet a1 fetch sheetTitle extractFirstRowHeader format none

/-- One remote call issued by the write path, with its range (and written
values where applicable). -/
inductive RemoteCall where
  | get (range : String)
  | clear (range : String)
  | update (range : String) (values : List (List String))
  | append (range : String) (values : List (List (Option String)))
deriving DecidableEq, Repr

/-- Mirrors `doAppend` (Create-Rows with the Append destination).  Returns
the destination range and projected grid on success, plus the ordered log
of remote calls (`extractSheetRows`' fetch, the header fetch / clear /
update when a header is requested, and the final append).  Remote calls
are modelled as always succeeding with status 200. -/
def doAppend (fetch : String → Option (List (List String))) (sheetTitle : String)
    (jsonData : List (JsRec String)) (headerRowNumber : Nat)
    (includeHeaderRow : Bool) :
    Except PluginError (String × List (List (Option String))) × List RemoteCall :=
  let rowsRange := sheetTitle ++ "!A1:" ++ MAX_A1_RANGE
  let rowsNumber := Nat.max ((fetch rowsRange).getD []).length headerRowNumber
  let hdrRange :=
    sheetTitle ++ "!A" ++ toString headerRowNumber ++ ":" ++ MAX_COLUMN
      ++ toString headerRowNumber
  let (allColumns, log1) :=
    if includeHeaderRow then
      let cols := extractAllColumns (fetch hdrRange) jsonData
      (cols,
        [RemoteCall.get rowsRange, RemoteCall.get hdrRange,
          RemoteCall.clear hdrRange,
          RemoteCall.update hdrRange [cols.map (fun c => c.name)]])
    else
      (extractDataColumns jsonData, [RemoteCall.get rowsRange])
  let destinationRange :=
    sheetTitle ++ "!A" ++ toString (rowsNumber + 1) ++ ":" ++ MAX_COLUMN
      ++ toString (rowsNumber + 1)
  match dataToCells jsonData allColumns with
  | .error e => (.error e, log1)
  | .ok rowsData =>
    (.ok (destinationRange, rowsData),
      log1 ++ [RemoteCall.append destinationRange rowsData])

/-- The "value of the last present cell whose column name is `n`" scan
over a grid row, used to state what `sheetDataToRecordSet` maps a
(possibly duplicated) column name to. -/
def lastValueForAux (sheetColumns : List SheetColumn) (offset : Nat) (n : String) :
    List (Option α) → Nat → Option α → Option α
  | [], _, acc => acc
  | cell :: rest, cellIndex, acc =>
    lastValueForAux sheetColumns offset n rest (cellIndex + 1)
      (match cell with
        | some v =>
          if colNameAt sheetColumns (cellIndex + offset) == n then some v else acc
        | none => acc)

/-- Value of the last (highest-indexed) present cell of `row` whose column
name resolves to `n`. -/
def lastValueFor (sheetColumns : List SheetColumn) (offset : Nat) (n : String)
    (row : List (Option α)) : Option α :=
  lastValueForAux sheetColumns offset n row 0 none

/-- JavaScript property read `obj[n]` on a record: first pair with the key. -/
def jsGet : JsRec α → String → Option α
  | [], _ => none
  | p :: rest, n => if p.1 == n then some p.2 else jsGet rest n

/-- Columns built left to right starting at index `n`. -/
def mkColsFrom (n : Nat) : List String → List SheetColumn
  | [] => []
  | k :: ks => ⟨k, "sheet", n⟩ :: mkColsFrom (n + 1) ks

/-- Index of the first occurrence of a key in a list of names. -/
def idxOfKey (k : String) : List String → Nat
  | [] => 0
  | n :: ns => if n == k then 0 else idxOfKey k ns + 1

/-- The key-union fold shared by `extractDataColumns`. -/
def collectKeys (data : List (JsRec α)) : List String :=
  data.foldl
    (fun acc row => row.foldl
      (fun acc p => if acc.contains p.1 then acc else acc ++ [p.1]) acc)
    []

/-- The row a record produces under `dataToCellsRow` with columns
`mkColsFrom 0 names`: each value lands at its key's index. -/
def setFold (names : List String) (r : JsRec α) (acc : List (Option α)) :
    List (Option α) :=
  r.foldl (fun a p => setAt a (idxOfKey p.1 names) p.2) acc

/-- Last-write-wins scan: the value of the last pair of `r` whose key has
index `j` in `names`. -/
def lastScan (names : List String) (r : JsRec α) (j : Nat) : Option α :=
  r.foldl (fun a p => if idxOfKey p.1 names == j then some p.2 else a) none

/-- Invariant carried by `extractAllColumns`' fold state:
`missingColumnsIndex` tracks the length, and every column sits at the
index its `sourceColumnIndex` names. -/
def colState (st : List SheetColumn × Nat) : Prop :=
  st.2 = st.1.length ∧ ∀ i c, st.1.get? i = some c → c.sourceColumnIndex = i

/-! ### Helper lemmas about the JavaScript-object and array primitives -/

/-- JavaScript assignment then read: the assigned key reads back the new
value, every other key is untouched. -/
theorem jsGet_upsert (r : JsRec α) (k : String) (v : α) (n : String) :
    jsGet (upsert r k v) n = if n = k then some v else jsGet r n := by
  induction r with
  | nil =>
    by_cases hnk : n = k
    · simp [upsert, jsGet, hnk]
    · have hkn : ¬ k = n := fun h => hnk h.symm
      simp [upsert, jsGet, hnk, hkn]
  | cons p rest ih =>
    cases hpk : p.1 == k with
    | true =>
      have hpk' : p.1 = k := by simpa using hpk
      by_cases hnk : n = k
      · subst hnk; simp [upsert, jsGet, hpk, hpk']
      · have hkn : ¬ k = n := fun h => hnk h.symm
        have hpn : (p.1 == n) = false := by
          simp [hpk']; exact hkn
        simp [upsert, jsGet, hpk, hnk, hkn, hpn]
    | false =>
      have hpk' : ¬ p.1 = k := by simpa using hpk
      cases hpn : p.1 == n with
      | true =>
        have hpn' : p.1 = n := by simpa using hpn
        have hnk : ¬ n = k := fun h => hpk' (hpn'.trans h)
        simp [upsert, jsGet, hpk, hpn, hnk]
      | false =>
        simp [upsert, jsGet, hpk, hpn, ih]

theorem joinGet_setAt (l : List (Option α)) (i : Nat) (v : α) (j : Nat) :
    joinGet (setAt l i v) j = if j = i then some v else joinGet l j := by
  induction l generalizing i j with
  | nil =>
    induction i generalizing j with
    | zero => cases j <;> simp [setAt, joinGet, List.getD]
    | succ i ih =>
      cases j with
      | zero => simp [setAt, joinGet, List.getD]
      | succ j => simpa [setAt, joinGet, List.getD] using ih j
  | cons c rest ih =>
    cases i with
    | zero => cases j <;> simp [setAt, joinGet, List.getD]
    | succ i =>
      cases j with
      | zero => simp [setAt, joinGet, List.getD]
      | succ j => simpa [setAt, joinGet, List.getD] using ih i j

theorem setAt_length (l : List (Option α)) (i : Nat) (v : α) :
    (setAt l i v).length = Nat.max l.length (i + 1) := by
  induction l generalizing i with
  | nil =>
    induction i with
    | zero => simp [setAt]
    | succ i ih =>
      simp only [setAt, List.length_cons, ih, List.length_nil, Nat.max_def]
      split <;> split <;> omega
  | cons c rest ih =>
    cases i with
    | zero =>
      simp only [setAt, List.length_cons, List.length_nil, Nat.max_def]
      split <;> omega
    | succ i =>
      simp only [setAt, List.length_cons, ih, Nat.max_def]
      split <;> split <;> omega

/-! ### Helper lemmas about the column-pushing fold -/

theorem foldl_pushColumn (keys : List String) (cols : List SheetColumn) :
    keys.foldl pushColumn cols = cols ++ mkColsFrom cols.length keys := by
  induction keys generalizing cols with
  | nil => simp [mkColsFrom]
  | cons k ks ih =>
    simp only [List.foldl_cons, ih, pushColumn, mkColsFrom]
    simp

theorem mkColsFrom_length (n : Nat) (ks : List String) :
    (mkColsFrom n ks).length = ks.length := by
  induction ks generalizing n with
  | nil => rfl
  | cons k ks ih => simp [mkColsFrom, ih]

theorem mkColsFrom_get? (n : Nat) (ks : List String) (i : Nat) :
    (mkColsFrom n ks).get? i =
      (ks.get? i).map (fun k => ⟨k, "sheet", n + i⟩) := by
  induction ks generalizing n i with
  | nil => simp [mkColsFrom]
  | cons k ks ih =>
    cases i with
    | zero => simp [mkColsFrom]
    | succ i =>
      have h : n + 1 + i = n + (i + 1) := by omega
      simp only [mkColsFrom, List.get?_cons_succ, ih, h]

theorem mkColsFrom_map_name (n : Nat) (ks : List String) :
    (mkColsFrom n ks).map (fun c => c.name) = ks := by
  induction ks generalizing n with
  | nil => rfl
  | cons k ks ih => simp [mkColsFrom, ih]

theorem name_mem_of_mem_mkColsFrom {n : Nat} {ks : List String} {c : SheetColumn}
    (h : c ∈ mkColsFrom n ks) : c.name ∈ ks := by
  have : c.name ∈ (mkColsFrom n ks).map (fun c => c.name) := List.mem_map_of_mem _ h
  rwa [mkColsFrom_map_name] at this

theorem idxOfKey_lt_length {k : String} {ns : List String} (h : k ∈ ns) :
    idxOfKey k ns < ns.length := by
  induction ns with
  | nil => cases h
  | cons n ns ih =>
    cases hnk : n == k with
    | true => simp [idxOfKey, hnk]
    | false =>
      have hne : ¬ n = k := by simpa using hnk
      have hk : k ∈ ns := by
        cases List.mem_cons.mp h with
        | inl h' => exact absurd h'.symm hne
        | inr h' => exact h'
      simp only [idxOfKey, hnk, Bool.false_eq_true, if_false, List.length_cons]
      exact Nat.succ_lt_succ (ih hk)

theorem get?_idxOfKey {k : String} {ns : List String} (h : k ∈ ns) :
    ns.get? (idxOfKey k ns) = some k := by
  induction ns with
  | nil => cases h
  | cons n ns ih =>
    cases hnk : n == k with
    | true =>
      have hne : n = k := by simpa using hnk
      simp [idxOfKey, hnk, hne]
    | false =>
      have hne : ¬ n = k := by simpa using hnk
      have hk : k ∈ ns := by
        cases List.mem_cons.mp h with
        | inl h' => exact absurd h'.symm hne
        | inr h' => exact h'
      simpa [idxOfKey, hnk] using ih hk

theorem idxOfKey_of_get? {ns : List String} (hnd : ns.Nodup) {j : Nat} {k : String}
    (h : ns.get? j = some k) : j = idxOfKey k ns := by
  induction ns generalizing j with
  | nil => simp at h
  | cons n ns ih =>
    cases j with
    | zero =>
      simp only [List.get?_cons_zero, Option.some.injEq] at h
      simp [idxOfKey, h]
    | succ j =>
      simp only [List.get?_cons_succ] at h
      have hk : k ∈ ns := List.get?_mem h
      have hne : ¬ n = k := by
        intro he
        exact (List.nodup_cons.mp hnd).1 (he ▸ hk)
      have hnk : (n == k) = false := by simpa using hne
      simp only [idxOfKey, hnk, Bool.false_eq_true, if_false]
      exact congrArg (· + 1) (ih (List.nodup_cons.mp hnd).2 h)

theorem find?_eq_of_pointwise {β : Type} (l : List β) (p q : β → Bool)
    (h : ∀ c ∈ l, p c = q c) : l.find? p = l.find? q := by
  induction l with
  | nil => rfl
  | cons c l ih =>
    have hc := h c (List.mem_cons_self c l)
    cases hq : q c with
    | true => simp [List.find?_cons, hc, hq]
    | false =>
      simp only [List.find?_cons, hc, hq]
      exact ih (fun c hcl => h c (List.mem_cons_of_mem _ hcl))

theorem mkColsFrom_find?_name (n : Nat) (ks : List String) (k : String) :
    (mkColsFrom n ks).find? (fun c => c.name == k) =
      if k ∈ ks then some ⟨k, "sheet", n + idxOfKey k ks⟩ else none := by
  induction ks generalizing n with
  | nil => simp [mkColsFrom]
  | cons n' ks ih =>
    cases hnk : n' == k with
    | true =>
      have hne : n' = k := by simpa using hnk
      simp [mkColsFrom, List.find?_cons, hnk, idxOfKey, hne]
    | false =>
      have hne : ¬ n' = k := by simpa using hnk
      by_cases hk : k ∈ ks
      · have hmem : k ∈ n' :: ks := List.mem_cons_of_mem _ hk
        simp only [mkColsFrom, List.find?_cons, hnk, ih, hk, if_true, hmem,
          idxOfKey]
        simp [hnk]
        omega
      · have hmem : ¬ k ∈ n' :: ks := by
          intro hc
          cases List.mem_cons.mp hc with
          | inl h' => exact hne h'.symm
          | inr h' => exact hk h'
        simp [mkColsFrom, List.find?_cons, hnk, ih, hk, hmem]

/-- With every name that case-insensitively collides with `k` being `k`
itself, `dataToCells`' case-insensitive column search coincides with exact
search. -/
theorem find?_lower_eq_find?_name (n : Nat) (ks : List String) (k : String)
    (hinj : ∀ n' ∈ ks, jsToLower n' = jsToLower k → n' = k) :
    (mkColsFrom n ks).find? (fun c => jsToLower c.name == jsToLower k) =
      (mkColsFrom n ks).find? (fun c => c.name == k) := by
  apply find?_eq_of_pointwise
  intro c hc
  have hname : c.name ∈ ks := name_mem_of_mem_mkColsFrom hc
  by_cases he : c.name = k
  · simp [he]
  · have hlow : ¬ jsToLower c.name = jsToLower k := fun h => he (hinj _ hname h)
    simp [he, hlow]

theorem extractDataColumns_eq (data : List (JsRec α)) :
    extractDataColumns data = mkColsFrom 0 (collectKeys data) := by
  unfold extractDataColumns collectKeys
  cases data with
  | nil => simp [mkColsFrom]
  | cons r rest =>
    simp only [List.isEmpty_cons, Bool.false_eq_true, if_false]
    exact (foldl_pushColumn _ []).trans (by simp)

theorem mem_addRowKeys (row : JsRec α) (acc : List String) (x : String) :
    (x ∈ row.foldl
        (fun acc p => if acc.contains p.1 then acc else acc ++ [p.1]) acc) ↔
      x ∈ acc ∨ x ∈ row.map Prod.fst := by
  induction row generalizing acc with
  | nil => simp
  | cons p row ih =>
    cases hc : acc.contains p.1 with
    | true =>
      have hmem : p.1 ∈ acc := by simpa using hc
      rw [List.foldl_cons, if_pos hc, ih]
      simp only [List.map_cons, List.mem_cons]
      constructor
      · rintro (h | h)
        · exact Or.inl h
        · exact Or.inr (Or.inr h)
      · rintro (h | h | h)
        · exact Or.inl h
        · exact Or.inl (h ▸ hmem)
        · exact Or.inr h
    | false =>
      have hc' : ¬ acc.contains p.1 = true := by
        simp only [hc]; exact Bool.false_ne_true
      rw [List.foldl_cons, if_neg hc', ih]
      simp only [List.mem_append, List.mem_singleton, List.map_cons,
        List.mem_cons, List.not_mem_nil, or_false]
      constructor
      · rintro ((h | h) | h)
        · exact Or.inl h
        · exact Or.inr (Or.inl h)
        · exact Or.inr (Or.inr h)
      · rintro (h | h | h)
        · exact Or.inl (Or.inl h)
        · exact Or.inl (Or.inr h)
        · exact Or.inr h

theorem nodup_addRowKeys (row : JsRec α) (acc : List String) (hnd : acc.Nodup) :
    (row.foldl
      (fun acc p => if acc.contains p.1 then acc else acc ++ [p.1]) acc).Nodup := by
  induction row generalizing acc with
  | nil => exact hnd
  | cons p row ih =>
    cases hc : acc.contains p.1 with
    | true =>
      rw [List.foldl_cons, if_pos hc]
      exact ih acc hnd
    | false =>
      have hc' : ¬ acc.contains p.1 = true := by
        simp only [hc]; exact Bool.false_ne_true
      have hnm : ¬ p.1 ∈ acc := by simpa using hc
      rw [List.foldl_cons, if_neg hc']
      exact ih (acc ++ [p.1]) (by simp [List.nodup_append, hnd, hnm])

theorem mem_collectKeys (data : List (JsRec α)) (x : String) :
    x ∈ collectKeys data ↔ ∃ r ∈ data, x ∈ r.map Prod.fst := by
  have main : ∀ (ds : List (JsRec α)) (acc : List String),
      (x ∈ ds.foldl
        (fun acc row => row.foldl
          (fun acc p => if acc.contains p.1 then acc else acc ++ [p.1]) acc)
        acc) ↔ x ∈ acc ∨ ∃ r ∈ ds, x ∈ r.map Prod.fst := by
    intro ds
    induction ds with
    | nil => simp
    | cons r ds ih =>
      intro acc
      rw [List.foldl_cons, ih, mem_addRowKeys]
      constructor
      · rintro ((h | h) | h)
        · exact Or.inl h
        · exact Or.inr ⟨r, List.mem_cons_self r ds, h⟩
        · obtain ⟨r', hr', hx⟩ := h
          exact Or.inr ⟨r', List.mem_cons_of_mem _ hr', hx⟩
      · rintro (h | ⟨r', hr', hx⟩)
        · exact Or.inl (Or.inl h)
        · cases List.mem_cons.mp hr' with
          | inl he => exact Or.inl (Or.inr (he ▸ hx))
          | inr hm => exact Or.inr ⟨r', ⟨hm, hx⟩⟩
  rw [collectKeys, main data []]
  simp

theorem nodup_collectKeys (data : List (JsRec α)) : (collectKeys data).Nodup := by
  have main : ∀ (ds : List (JsRec α)) (acc : List String), acc.Nodup →
      (ds.foldl
        (fun acc row => row.foldl
          (fun acc p => if acc.contains p.1 then acc else acc ++ [p.1]) acc)
        acc).Nodup := by
    intro ds
    induction ds with
    | nil => exact fun acc h => h
    | cons r ds ih =>
      intro acc hnd
      rw [List.foldl_cons]
      exact ih _ (nodup_addRowKeys r acc hnd)
  exact main data [] List.nodup_nil

/-! ### Round-trip machinery: writing a record into a row and back -/

theorem joinGet_nil (j : Nat) : joinGet ([] : List (Option α)) j = none := rfl

theorem joinGet_cons_zero (c : Option α) (l : List (Option α)) :
    joinGet (c :: l) 0 = c := rfl

theorem joinGet_cons_succ (c : Option α) (l : List (Option α)) (j : Nat) :
    joinGet (c :: l) (j + 1) = joinGet l j := rfl

theorem dataToCellsRow_eq_setFold (names : List String) (r : JsRec α)
    (hsub : ∀ p ∈ r, p.1 ∈ names)
    (hinj : ∀ p ∈ r, ∀ n' ∈ names, jsToLower n' = jsToLower p.1 → n' = p.1)
    (acc : List (Option α)) :
    dataToCellsRow (mkColsFrom 0 names) r acc = .ok (setFold names r acc) := by
  induction r generalizing acc with
  | nil => rfl
  | cons p rest ih =>
    have hk : p.1 ∈ names := hsub p (List.mem_cons_self p rest)
    have hpos : (mkColsFrom 0 names).length > 0 := by
      rw [mkColsFrom_length]
      exact List.length_pos_of_mem hk
    have hfind :
        (mkColsFrom 0 names).find? (fun c => jsToLower c.name == jsToLower p.1) =
          some ⟨p.1, "sheet", idxOfKey p.1 names⟩ := by
      rw [find?_lower_eq_find?_name 0 names p.1
        (hinj p (List.mem_cons_self p rest)), mkColsFrom_find?_name,
        if_pos hk, Nat.zero_add]
    show dataToCellsRow (mkColsFrom 0 names) ((p.1, p.2) :: rest) acc = _
    rw [dataToCellsRow, if_pos hpos, hfind]
    show dataToCellsRow (mkColsFrom 0 names) rest
        (setAt acc (idxOfKey p.1 names) p.2) = _
    rw [ih (fun q hq => hsub q (List.mem_cons_of_mem p hq))
      (fun q hq => hinj q (List.mem_cons_of_mem p hq))]
    rfl

/-- A fold whose step either installs a new value or keeps the
accumulator only consults the initial accumulator when no step fires. -/
theorem foldl_ifStep {β : Type} (cond : β → Bool) (val : β → α) (r : List β)
    (acc : Option α) :
    r.foldl (fun a p => if cond p then some (val p) else a) acc =
      match r.foldl (fun a p => if cond p then some (val p) else a) none with
      | some v => some v
      | none => acc := by
  induction r generalizing acc with
  | nil => rfl
  | cons p rest ih =>
    rw [List.foldl_cons, List.foldl_cons, ih]
    conv_rhs => rw [ih]
    cases h : rest.foldl (fun a p => if cond p then some (val p) else a) none with
    | some w => rfl
    | none =>
      by_cases hc : cond p = true
      · simp [hc]
      · simp [hc]

theorem joinGet_setFold (names : List String) (r : JsRec α)
    (acc : List (Option α)) (j : Nat) :
    joinGet (setFold names r acc) j =
      match lastScan names r j with
      | some v => some v
      | none => joinGet acc j := by
  induction r generalizing acc with
  | nil => rfl
  | cons p rest ih =>
    show joinGet (setFold names rest (setAt acc (idxOfKey p.1 names) p.2)) j = _
    rw [ih]
    have hscan : lastScan names (p :: rest) j =
        match lastScan names rest j with
        | some v => some v
        | none => if idxOfKey p.1 names == j then some p.2 else none := by
      show List.foldl _ (if idxOfKey p.1 names == j then some p.2 else none) rest = _
      exact foldl_ifStep (fun p => idxOfKey p.1 names == j) Prod.snd rest _
    rw [hscan]
    cases h : lastScan names rest j with
    | some w => rfl
    | none =>
      rw [joinGet_setAt]
      by_cases hj : j = idxOfKey p.1 names
      · have : (idxOfKey p.1 names == j) = true := by simp [hj]
        simp [hj, this]
      · have : (idxOfKey p.1 names == j) = false := by
          simp; exact fun h' => hj h'.symm
        simp [hj, this]

theorem jsGet_eq_none_of_not_mem {r : JsRec α} {k : String}
    (h : ¬ k ∈ r.map Prod.fst) : jsGet r k = none := by
  induction r with
  | nil => rfl
  | cons p rest ih =>
    have h1 : ¬ p.1 = k := fun he => h (by simp [he])
    have h1' : (p.1 == k) = false := by simpa using h1
    rw [jsGet, h1', if_neg Bool.false_ne_true]
    exact ih (fun hm => h (by simp [List.mem_cons]; exact Or.inr (by simpa using hm)))

theorem lastScan_eq (names : List String) (hnd : names.Nodup) (r : JsRec α)
    (hrk : (r.map Prod.fst).Nodup) (hsub : ∀ p ∈ r, p.1 ∈ names) (j : Nat) :
    lastScan names r j =
      match names.get? j with
      | some nj => jsGet r nj
      | none => none := by
  induction r with
  | nil =>
    cases names.get? j <;> rfl
  | cons p rest ih =>
    have hk : p.1 ∈ names := hsub p (List.mem_cons_self p rest)
    rw [List.map_cons] at hrk
    obtain ⟨hpf, hrk'⟩ := List.nodup_cons.mp hrk
    have ihr := ih hrk' (fun q hq => hsub q (List.mem_cons_of_mem p hq))
    have hscan : lastScan names (p :: rest) j =
        match lastScan names rest j with
        | some v => some v
        | none => if idxOfKey p.1 names == j then some p.2 else none := by
      show List.foldl _ (if idxOfKey p.1 names == j then some p.2 else none) rest = _
      exact foldl_ifStep (fun p => idxOfKey p.1 names == j) Prod.snd rest _
    cases hget : names.get? j with
    | none =>
      rw [hscan, ihr, hget]
      have hjlen : names.length ≤ j := by
        by_contra hlt
        rw [List.get?_eq_get (by omega)] at hget
        simp at hget
      have hne : (idxOfKey p.1 names == j) = false := by
        have := idxOfKey_lt_length hk
        simp
        omega
      simp [hne]
    | some nj =>
      rw [hscan, ihr, hget]
      by_cases hpn : p.1 = nj
      · have hj : j = idxOfKey p.1 names := by
          rw [hpn]; exact idxOfKey_of_get? hnd hget
        have heq : (idxOfKey p.1 names == j) = true := by simp [hj]
        have hnone : jsGet rest nj = none := by
          apply jsGet_eq_none_of_not_mem
          rw [← hpn]
          exact hpf
        have hbeq : (p.1 == nj) = true := by simp [hpn]
        simp [jsGet, hbeq, heq, hnone]
      · have hne : (idxOfKey p.1 names == j) = false := by
          simp
          intro hj
          have hgx := get?_idxOfKey hk
          rw [hj, hget] at hgx
          exact hpn (Option.some.inj hgx.symm)
        have hbeq : (p.1 == nj) = false := by simpa using hpn
        cases h2 : jsGet rest nj <;> simp [jsGet, hbeq, hne, h2]

theorem setFold_length_le (names : List String) (r : JsRec α)
    (hsub : ∀ p ∈ r, p.1 ∈ names) (acc : List (Option α))
    (hacc : acc.length ≤ names.length) :
    (setFold names r acc).length ≤ names.length := by
  induction r generalizing acc with
  | nil => exact hacc
  | cons p rest ih =>
    have hk : p.1 ∈ names := hsub p (List.mem_cons_self p rest)
    have hidx := idxOfKey_lt_length hk
    refine ih (fun q hq => hsub q (List.mem_cons_of_mem p hq)) _ ?_
    rw [setAt_length]
    exact Nat.max_le.mpr ⟨hacc, hidx⟩

theorem setFold_length_mono (names : List String) (r : JsRec α)
    (acc : List (Option α)) : acc.length ≤ (setFold names r acc).length := by
  induction r generalizing acc with
  | nil => exact Nat.le_refl _
  | cons p rest ih =>
    refine Nat.le_trans ?_ (ih (setAt acc (idxOfKey p.1 names) p.2))
    rw [setAt_length]
    exact Nat.le_max_left _ _

theorem idx_lt_setFold_length (names : List String) (r : JsRec α)
    (acc : List (Option α)) {p : String × α} (hp : p ∈ r) :
    idxOfKey p.1 names < (setFold names r acc).length := by
  induction r generalizing acc with
  | nil => cases hp
  | cons q rest ih =>
    cases List.mem_cons.mp hp with
    | inl he =>
      subst he
      refine Nat.lt_of_lt_of_le ?_ (setFold_length_mono names rest _)
      rw [setAt_length]
      exact Nat.lt_of_lt_of_le (Nat.lt_succ_self _) (Nat.le_max_right _ _)
    | inr hm => exact ih _ hm

theorem idxOfKey_not_mem {k : String} {ns : List String} (h : ¬ k ∈ ns) :
    idxOfKey k ns = ns.length := by
  induction ns with
  | nil => rfl
  | cons m ns ih =>
    have hmk : (m == k) = false := by
      simp
      intro he
      exact h (by rw [← he]; exact List.mem_cons_self m ns)
    have hrest : ¬ k ∈ ns := fun hm => h (List.mem_cons_of_mem m hm)
    simp [idxOfKey, hmk, ih hrest]

/-- What reading key `n` out of the record projected from the cells
`row` (placed at absolute positions `i, i+1, …` against columns
`mkColsFrom 0 names`) gives: the cell at `n`'s column position when that
position falls in the processed window and the cell is present, else
whatever the accumulator record already held. -/
theorem jsGet_projRowAux_window (names : List String) (hnd : names.Nodup)
    (n : String) :
    ∀ (row : List (Option α)) (i : Nat) (cur : JsRec α),
      i + row.length ≤ names.length →
      jsGet (projRowAux (mkColsFrom 0 names) 0 row i cur) n =
        match
          (if n ∈ names ∧ i ≤ idxOfKey n names ∧ idxOfKey n names < i + row.length
            then joinGet row (idxOfKey n names - i) else none) with
        | some v => some v
        | none => jsGet cur n := by
  intro row
  induction row with
  | nil =>
    intro i cur hbound
    have hcond : ¬ (n ∈ names ∧ i ≤ idxOfKey n names ∧
        idxOfKey n names < i + ([] : List (Option α)).length) := by
      rintro ⟨-, h2, h3⟩
      simp only [List.length_nil] at h3
      omega
    rw [if_neg hcond]
    rfl
  | cons c rest ih =>
    intro i cur hbound
    simp only [List.length_cons] at hbound
    simp only [List.length_cons]
    have hi : i < names.length := by omega
    have hget_i : names.get? i = some (names.get ⟨i, hi⟩) := List.get?_eq_get hi
    have hname : colNameAt (mkColsFrom 0 names) (i + 0) = names.get ⟨i, hi⟩ := by
      unfold colNameAt
      rw [Nat.add_zero, mkColsFrom_get?, hget_i]
      rfl
    cases c with
    | some v =>
      have hstep : projRowAux (mkColsFrom 0 names) 0 (some v :: rest) i cur =
          projRowAux (mkColsFrom 0 names) 0 rest (i + 1)
            (upsert cur (colNameAt (mkColsFrom 0 names) (i + 0)) v) := rfl
      rw [hstep, hname, ih (i + 1) _ (by omega), jsGet_upsert]
      by_cases hnm : n = names.get ⟨i, hi⟩
      · have hidx : idxOfKey n names = i :=
          (idxOfKey_of_get? hnd (by rw [hget_i, hnm])).symm
        have hmem : n ∈ names := by
          rw [hnm]; exact List.get_mem names i hi
        have hin_false : ¬ (n ∈ names ∧ i + 1 ≤ idxOfKey n names ∧
            idxOfKey n names < i + 1 + rest.length) := by
          rintro ⟨-, h2, -⟩
          omega
        have hout_true : n ∈ names ∧ i ≤ idxOfKey n names ∧
            idxOfKey n names < i + (rest.length + 1) := ⟨hmem, by omega, by omega⟩
        rw [if_neg hin_false, if_pos hout_true, hidx]
        simp [hnm, Nat.sub_self, joinGet_cons_zero]
      · have hne_idx : ¬ idxOfKey n names = i := by
          intro he
          by_cases hmem : n ∈ names
          · have hgx := get?_idxOfKey hmem
            rw [he, hget_i] at hgx
            exact hnm (Option.some.inj hgx).symm
          · rw [idxOfKey_not_mem hmem] at he
            omega
        by_cases hcond : n ∈ names ∧ i + 1 ≤ idxOfKey n names ∧
            idxOfKey n names < i + 1 + rest.length
        · obtain ⟨hmem, h2, h3⟩ := hcond
          have hout : n ∈ names ∧ i ≤ idxOfKey n names ∧
              idxOfKey n names < i + (rest.length + 1) := ⟨hmem, by omega, by omega⟩
          rw [if_pos ⟨hmem, h2, h3⟩, if_pos hout]
          have hsub : idxOfKey n names - i = (idxOfKey n names - (i + 1)) + 1 := by
            omega
          rw [hsub, joinGet_cons_succ]
          cases joinGet rest (idxOfKey n names - (i + 1)) with
          | some w => rfl
          | none =>
            show (if n = names.get ⟨i, hi⟩ then some v else jsGet cur n) =
              jsGet cur n
            exact if_neg hnm
        · have hout_false : ¬ (n ∈ names ∧ i ≤ idxOfKey n names ∧
              idxOfKey n names < i + (rest.length + 1)) := by
            rintro ⟨hmem, h2, h3⟩
            exact hcond ⟨hmem, by omega, by omega⟩
          rw [if_neg hcond, if_neg hout_false]
          show (if n = names.get ⟨i, hi⟩ then some v else jsGet cur n) =
            jsGet cur n
          exact if_neg hnm
    | none =>
      have hstep : projRowAux (mkColsFrom 0 names) 0 (none :: rest) i cur =
          projRowAux (mkColsFrom 0 names) 0 rest (i + 1) cur := rfl
      rw [hstep, ih (i + 1) cur (by omega)]
      by_cases hcond : n ∈ names ∧ i + 1 ≤ idxOfKey n names ∧
          idxOfKey n names < i + 1 + rest.length
      · obtain ⟨hmem, h2, h3⟩ := hcond
        have hout : n ∈ names ∧ i ≤ idxOfKey n names ∧
            idxOfKey n names < i + (rest.length + 1) := ⟨hmem, by omega, by omega⟩
        rw [if_pos ⟨hmem, h2, h3⟩, if_pos hout]
        have hsub : idxOfKey n names - i = (idxOfKey n names - (i + 1)) + 1 := by
          omega
        rw [hsub, joinGet_cons_succ]
      · rw [if_neg hcond]
        by_cases hout : n ∈ names ∧ i ≤ idxOfKey n names ∧
            idxOfKey n names < i + (rest.length + 1)
        · obtain ⟨hmem, h2, h3⟩ := hout
          have hidx : idxOfKey n names = i := by
            by_contra hne
            exact hcond ⟨hmem, by omega, by omega⟩
          rw [if_pos ⟨hmem, h2, h3⟩, hidx]
          simp [Nat.sub_self, joinGet_cons_zero]
        · rw [if_neg hout]

/-- Per-record round trip: writing a record into a fresh row with
`dataToCells`' placement and projecting that row back reads every key
exactly as the original record does. -/
theorem jsGet_projRow_setFold (names : List String) (hnd : names.Nodup)
    (r : JsRec α) (hrk : (r.map Prod.fst).Nodup)
    (hsub : ∀ p ∈ r, p.1 ∈ names) (n : String) :
    jsGet (projRowAux (mkColsFrom 0 names) 0 (setFold names r []) 0 []) n =
      jsGet r n := by
  have hlen : (setFold names r []).length ≤ names.length :=
    setFold_length_le names r hsub [] (by simp)
  rw [jsGet_projRowAux_window names hnd n (setFold names r []) 0 [] (by omega)]
  have hjoin : ∀ j, joinGet (setFold names r []) j = lastScan names r j := by
    intro j
    rw [joinGet_setFold]
    cases lastScan names r j <;> rfl
  by_cases hcond : n ∈ names ∧ 0 ≤ idxOfKey n names ∧
      idxOfKey n names < 0 + (setFold names r []).length
  · have hmem : n ∈ names := hcond.1
    rw [if_pos hcond, Nat.sub_zero, hjoin,
      lastScan_eq names hnd r hrk hsub, get?_idxOfKey hmem]
    show (match jsGet r n with
      | some v => some v
      | none => jsGet ([] : JsRec α) n) = jsGet r n
    cases jsGet r n with
    | some w => rfl
    | none => rfl
  · rw [if_neg hcond]
    have hnm : ¬ n ∈ r.map Prod.fst := by
      intro hm
      obtain ⟨p, hp, hpn⟩ := List.mem_map.mp hm
      apply hcond
      refine ⟨?_, Nat.zero_le _, ?_⟩
      · rw [← hpn]; exact hsub p hp
      · have hlt := idx_lt_setFold_length names r ([] : List (Option α)) hp
        rw [hpn] at hlt
        omega
    rw [jsGet_eq_none_of_not_mem hnm]
    rfl

theorem dataToCells_map_ok (names : List String) (data : List (JsRec α))
    (hsub : ∀ r ∈ data, ∀ p ∈ r, p.1 ∈ names)
    (hinj : ∀ r ∈ data, ∀ p ∈ r, ∀ n' ∈ names,
      jsToLower n' = jsToLower p.1 → n' = p.1) :
    dataToCells data (mkColsFrom 0 names) =
      .ok (data.map (fun r => setFold names r [])) := by
  induction data with
  | nil => rfl
  | cons r rest ih =>
    have h1 := dataToCellsRow_eq_setFold names r
      (hsub r (List.mem_cons_self r rest)) (hinj r (List.mem_cons_self r rest)) []
    have h2 := ih (fun q hq => hsub q (List.mem_cons_of_mem r hq))
      (fun q hq => hinj q (List.mem_cons_of_mem r hq))
    show (dataToCellsRow (mkColsFrom 0 names) r [] >>= fun row =>
        dataToCells rest (mkColsFrom 0 names) >>= fun rows =>
          Except.ok (row :: rows)) = _
    rw [h1, h2]
    rfl

/-- List-level round trip over the from-data columns, record by record. -/
theorem roundTrip_core (fmt : GoogleSheetsFormatType) (names : List String)
    (hnd : names.Nodup) (data : List (JsRec α))
    (hrk : ∀ r ∈ data, (r.map Prod.fst).Nodup)
    (hsub : ∀ r ∈ data, ∀ p ∈ r, p.1 ∈ names) :
    List.Forall₂ (fun rec orig => ∀ k, jsGet rec k = jsGet orig k)
      (sheetDataToRecordSet (data.map (fun r => setFold names r [])) fmt
        (mkColsFrom 0 names) 0) data := by
  induction data with
  | nil => exact List.Forall₂.nil
  | cons r rest ih =>
    refine List.Forall₂.cons ?_
      (ih (fun q hq => hrk q (List.mem_cons_of_mem r hq))
        (fun q hq => hsub q (List.mem_cons_of_mem r hq)))
    intro k
    exact jsGet_projRow_setFold names hnd r (hrk r (List.mem_cons_self r rest))
      (hsub r (List.mem_cons_self r rest)) k

/-! ### Error-path lemmas for `dataToCells` -/

theorem dataToCellsRow_empty_cols (r : JsRec α) (acc : List (Option α)) :
    dataToCellsRow ([] : List SheetColumn) r acc =
      .ok (acc ++ r.map (fun p => some p.2)) := by
  induction r generalizing acc with
  | nil => simp [dataToCellsRow]
  | cons p rest ih =>
    show dataToCellsRow [] ((p.1, p.2) :: rest) acc = _
    rw [dataToCellsRow, if_neg (by simp)]
    rw [ih (acc ++ [some p.2])]
    simp

theorem dataToCells_empty_cols (data : List (JsRec α)) :
    dataToCells data ([] : List SheetColumn) =
      .ok (data.map (fun r => r.map (fun p => some p.2))) := by
  induction data with
  | nil => rfl
  | cons r rest ih =>
    show (dataToCellsRow ([] : List SheetColumn) r [] >>= fun row =>
        dataToCells rest [] >>= fun rows => Except.ok (row :: rows)) = _
    rw [dataToCellsRow_empty_cols r [], ih]
    rfl

theorem dataToCellsRow_error_shape (cols : List SheetColumn) (r : JsRec α)
    (acc : List (Option α)) (e : PluginError)
    (h : dataToCellsRow cols r acc = .error e) :
    ∃ k, e = .unexpectedKey k (expectedNames cols) := by
  induction r generalizing acc with
  | nil => simp [dataToCellsRow] at h
  | cons p rest ih =>
    rw [show dataToCellsRow cols (p :: rest) acc =
      dataToCellsRow cols ((p.1, p.2) :: rest) acc from rfl, dataToCellsRow] at h
    by_cases hlen : cols.length > 0
    · rw [if_pos hlen] at h
      cases hfind : cols.find? (fun c => jsToLower c.name == jsToLower p.1) with
      | none =>
        rw [hfind] at h
        exact ⟨p.1, (Except.error.injEq _ _).mp h.symm⟩
      | some c =>
        rw [hfind] at h
        exact ih _ h
    · rw [if_neg hlen] at h
      exact ih _ h

theorem dataToCellsRow_error_of_unmatched (cols : List SheetColumn)
    (hcols : cols ≠ []) (r : JsRec α)
    (hp : ∃ p ∈ r, ∀ c ∈ cols, ¬ jsToLower c.name = jsToLower p.1)
    (acc : List (Option α)) :
    ∃ k, dataToCellsRow cols r acc =
      .error (.unexpectedKey k (expectedNames cols)) := by
  induction r generalizing acc with
  | nil => simp at hp
  | cons q rest ih =>
    have hlen : cols.length > 0 := List.length_pos.mpr hcols
    obtain ⟨p, hpm, hpn⟩ := hp
    rw [show dataToCellsRow cols (q :: rest) acc =
      dataToCellsRow cols ((q.1, q.2) :: rest) acc from rfl, dataToCellsRow,
      if_pos hlen]
    cases hfind : cols.find? (fun c => jsToLower c.name == jsToLower q.1) with
    | none => exact ⟨q.1, rfl⟩
    | some c =>
      have hcq : jsToLower c.name = jsToLower q.1 := by
        have := List.find?_some hfind
        simpa using this
      have hpq : p ∈ rest := by
        cases List.mem_cons.mp hpm with
        | inl he =>
          exfalso
          exact hpn c (List.mem_of_find?_eq_some hfind) (by rw [he]; exact hcq)
        | inr hm => exact hm
      exact ih ⟨p, hpq, hpn⟩ _

theorem dataToCells_error_of_unmatched (cols : List SheetColumn)
    (hcols : cols ≠ []) (data : List (JsRec α))
    (hp : ∃ r ∈ data, ∃ p ∈ r, ∀ c ∈ cols, ¬ jsToLower c.name = jsToLower p.1) :
    ∃ k, dataToCells data cols =
      .error (.unexpectedKey k (expectedNames cols)) := by
  induction data with
  | nil => simp at hp
  | cons r rest ih =>
    obtain ⟨r', hr', hpr'⟩ := hp
    show ∃ k, (dataToCellsRow cols r [] >>= fun row =>
      dataToCells rest cols >>= fun rows => Except.ok (row :: rows)) = _
    cases hrow : dataToCellsRow cols r [] with
    | error e =>
      obtain ⟨k, hk⟩ := dataToCellsRow_error_shape cols r [] e hrow
      exact ⟨k, by rw [hk]; rfl⟩
    | ok row =>
      have hrest : r' ∈ rest := by
        cases List.mem_cons.mp hr' with
        | inl he =>
          exfalso
          obtain ⟨k, hk⟩ :=
            dataToCellsRow_error_of_unmatched cols hcols r (he ▸ hpr') []
          rw [hrow] at hk
          exact Except.noConfusion hk
        | inr hm => exact hm
      obtain ⟨k, hk⟩ := ih ⟨r', hrest, hpr'⟩
      refine ⟨k, ?_⟩
      show (Except.ok row >>= fun row =>
        dataToCells rest cols >>= fun rows => Except.ok (row :: rows)) = _
      rw [show (Except.ok row >>= fun row =>
        dataToCells rest cols >>= fun rows => Except.ok (row :: rows)) =
          (dataToCells rest cols >>= fun rows => Except.ok (row :: rows)) from rfl,
        hk]
      rfl

/-! ### Last-write-wins characterisation of `sheetDataToRecordSet` -/

theorem lastValueForAux_acc (sheetColumns : List SheetColumn) (offset : Nat)
    (n : String) (row : List (Option α)) :
    ∀ (i : Nat) (acc : Option α),
      lastValueForAux sheetColumns offset n row i acc =
        match lastValueForAux sheetColumns offset n row i none with
        | some v => some v
        | none => acc := by
  induction row with
  | nil => intro i acc; rfl
  | cons c rest ih =>
    intro i acc
    show lastValueForAux sheetColumns offset n rest (i + 1) _ = _
    rw [ih (i + 1)]
    have hrhs : lastValueForAux sheetColumns offset n (c :: rest) i none =
        lastValueForAux sheetColumns offset n rest (i + 1)
          (match c with
            | some v =>
              if colNameAt sheetColumns (i + offset) == n then some v else none
            | none => none) := rfl
    rw [hrhs]
    conv_rhs => rw [ih (i + 1)]
    cases h : lastValueForAux sheetColumns offset n rest (i + 1) none with
    | some w => rfl
    | none =>
      cases c with
      | none => rfl
      | some v =>
        by_cases hb : (colNameAt sheetColumns (i + offset) == n) = true
        · simp [hb]
        · simp at hb
          simp [hb]

theorem jsGet_projRowAux_lastValue (sheetColumns : List SheetColumn)
    (offset : Nat) (n : String) :
    ∀ (row : List (Option α)) (i : Nat) (cur : JsRec α),
      jsGet (projRowAux sheetColumns offset row i cur) n =
        match lastValueForAux sheetColumns offset n row i none with
        | some v => some v
        | none => jsGet cur n := by
  intro row
  induction row with
  | nil => intro i cur; rfl
  | cons c rest ih =>
    intro i cur
    cases c with
    | some v =>
      show jsGet (projRowAux sheetColumns offset rest (i + 1)
        (upsert cur (colNameAt sheetColumns (i + offset)) v)) n = _
      rw [ih (i + 1), jsGet_upsert]
      have hrhs : lastValueForAux sheetColumns offset n (some v :: rest) i none =
          lastValueForAux sheetColumns offset n rest (i + 1)
            (if colNameAt sheetColumns (i + offset) == n then some v
              else none) := rfl
      rw [hrhs]
      conv_rhs => rw [lastValueForAux_acc]
      cases h : lastValueForAux sheetColumns offset n rest (i + 1) none with
      | some w => rfl
      | none =>
        by_cases hb : colNameAt sheetColumns (i + offset) = n
        · have hb' : (colNameAt sheetColumns (i + offset) == n) = true := by
            simp [hb]
          have hn : n = colNameAt sheetColumns (i + offset) := hb.symm
          simp [hb', if_pos hn]
        · have hb' : (colNameAt sheetColumns (i + offset) == n) = false := by
            simpa using hb
          have hn : ¬ n = colNameAt sheetColumns (i + offset) :=
            fun h' => hb h'.symm
          simp [hb', if_neg hn]
    | none =>
      show jsGet (projRowAux sheetColumns offset rest (i + 1) cur) n = _
      rw [ih (i + 1)]
      rfl

/-! ### Position invariant machinery -/

theorem foldl_preserve {β σ : Type _} (P : σ → Prop) (f : σ → β → σ)
    (hstep : ∀ s b, P s → P (f s b)) :
    ∀ (l : List β) (s : σ), P s → P (l.foldl f s) := by
  intro l
  induction l with
  | nil => exact fun s hs => hs
  | cons b l ih =>
    intro s hs
    rw [List.foldl_cons]
    exact ih _ (hstep s b hs)

theorem sourceIdx_pushFold (keys : List String) (i : Nat) (c : SheetColumn)
    (h : (keys.foldl pushColumn []).get? i = some c) : c.sourceColumnIndex = i := by
  rw [foldl_pushColumn, List.nil_append] at h
  rw [mkColsFrom_get?] at h
  cases hk : keys.get? i with
  | none => rw [hk] at h; exact Option.noConfusion h
  | some k =>
    rw [hk] at h
    have := Option.some.inj h
    rw [← this]
    simp

theorem colState_pushMissing (st : List SheetColumn × Nat) (k : String)
    (h : colState st) : colState (st.1 ++ [⟨k, "sheet", st.2⟩], st.2 + 1) := by
  obtain ⟨hlen, hidx⟩ := h
  constructor
  · simp [hlen]
  · intro i c hc
    rcases Nat.lt_trichotomy i st.1.length with hlt | heq | hgt
    · rw [List.get?_append hlt] at hc
      exact hidx i c hc
    · rw [heq, List.get?_concat_length] at hc
      have h2 := Option.some.inj hc
      rw [← h2, heq]
      exact hlen
    · have hnone : (st.1 ++ [(⟨k, "sheet", st.2⟩ : SheetColumn)]).get? i = none := by
        apply List.get?_eq_none.mpr
        simp
        omega
      rw [hnone] at hc
      exact Option.noConfusion hc

/-! ## Claims -/

/-- C1: the claim (and the repository's own test on duplicate column
names) says a Read with header extraction off keys every record by the
generated `columnN` placeholder labels, never by first-row values.  The
code violates this: `extractSheetColumns` builds columns from `values[0]`
even when `headerRowNumber` is absent, so on the grid
`[["Name","stocks","stocks"],["Row1","57","763"]]` with extraction off
the records come out keyed `Name`/`stocks` (the duplicate first-row value
collapsing two cells into one field), not the claimed placeholder-keyed
records. -/
theorem read_headerOff_usesFirstRowNames :
    (readFromSpreadsheet specA1
      (fun r => if r == "sheetTitle!A1:ZZZ10000000"
        then some [["Name", "stocks", "stocks"], ["Row1", "57", "763"]] else none)
      "sheetTitle" false .FORMATTED_VALUE none) =
      (.ok [[("Name", "Name"), ("stocks", "stocks")],
            [("Name", "Row1"), ("stocks", "763")]],
        ["sheetTitle!A1:ZZZ10000000", "sheetTitle!A1:ZZZ10000000"]) ∧
    (readFromSpreadsheet specA1
      (fun r => if r == "sheetTitle!A1:ZZZ10000000"
        then some [["Name", "stocks", "stocks"], ["Row1", "57", "763"]] else none)
      "sheetTitle" false .FORMATTED_VALUE none).1 ≠
      .ok [[("column0", "Name"), ("column1", "stocks"), ("column2", "stocks")],
           [("column0", "Row1"), ("column1", "57"), ("column2", "763")]] :=
  ⟨rfl, fun h => absurd (Except.ok.inj h) (by decide)⟩

/-- C2 counterexample: the claim says column-name matching is
case-insensitive *everywhere*, in particular that the merge strategy does
not append a record key `"name"` as a new column when a column `"Name"`
exists.  `extractAllColumns` compares with `===`, so it does append it. -/
theorem extractAllColumns_caseSensitive_cex :
    extractAllColumns (some [["Name"]]) [[("name", "X")]] =
      [⟨"Name", "sheet", 0⟩, ⟨"name", "sheet", 1⟩] ∧
    ("name" : String) ≠ "Name" ∧ jsToLower "name" = jsToLower "Name" :=
  ⟨rfl, by decide, by decide⟩

/-- C2 amended: project-to-grid (`dataToCells`) matches a record key to a
column case-insensitively, keeping the column's stored casing and its
`sourceColumnIndex`; but the merge strategy (`extractAllColumns`)
reconciles record keys against the fetched header row case-sensitively —
a key differing from a header column only by case is appended as a new
column. -/
theorem columnMatching_caseInsensitivity (v key colName : String)
    (hlow : jsToLower key = jsToLower colName) (hne : key ≠ colName) :
    dataToCells [[(key, v)]] [⟨colName, "sheet", 0⟩] = .ok [[some v]] ∧
    extractAllColumns (some [[colName]]) [[(key, v)]] =
      [⟨colName, "sheet", 0⟩, ⟨key, "sheet", 1⟩] := by
  have hfind : ([⟨colName, "sheet", 0⟩] :
      List SheetColumn).find? (fun c => jsToLower c.name == jsToLower key) =
        some ⟨colName, "sheet", 0⟩ := by
    simp [List.find?, hlow]
  constructor
  · have h1 : dataToCellsRow [(⟨colName, "sheet", 0⟩ : SheetColumn)]
        [(key, v)] [] = Except.ok [some v] := by
      show (if ([(⟨colName, "sheet", 0⟩ : SheetColumn)] :
            List SheetColumn).length > 0 then
          match ([(⟨colName, "sheet", 0⟩ : SheetColumn)] :
              List SheetColumn).find?
              (fun c => jsToLower c.name == jsToLower key) with
          | none => Except.error (.unexpectedKey key
              (expectedNames [⟨colName, "sheet", 0⟩]))
          | some c => dataToCellsRow [⟨colName, "sheet", 0⟩]
              ([] : JsRec String) (setAt [] c.sourceColumnIndex v)
        else dataToCellsRow [⟨colName, "sheet", 0⟩] ([] : JsRec String)
          ([] ++ [some v])) = Except.ok [some v]
      rw [if_pos (by simp), hfind]
      rfl
    show (dataToCellsRow [⟨colName, "sheet", 0⟩] [(key, v)] [] >>= fun row =>
      dataToCells ([] : List (JsRec String)) [⟨colName, "sheet", 0⟩] >>=
        fun rows => Except.ok (row :: rows)) = _
    rw [h1]
    rfl
  · have hbe : (colName == key) = false := by
      simp
      exact fun h => hne h.symm
    have hfind2 : ([(⟨colName, "sheet", 0⟩ : SheetColumn)] :
        List SheetColumn).find? (fun column => column.name == key) = none := by
      simp [List.find?, hbe]
    rw [show extractAllColumns (some [[colName]]) [[(key, v)]] =
      (if (([(⟨colName, "sheet", 0⟩ : SheetColumn)] :
            List SheetColumn).find? (fun column => column.name == key)).isSome
        then (([⟨colName, "sheet", 0⟩] : List SheetColumn), 1)
        else ([⟨colName, "sheet", 0⟩] ++ [⟨key, "sheet", 1⟩], 1 + 1)).1
      from rfl, hfind2]
    rfl

/-- C2 amended, instantiated: witness for `columnMatching_caseInsensitivity`
at key `"name"`, column `"Name"`, value `"X"`. -/
theorem columnMatching_caseInsensitivity_witness :
    dataToCells [[("name", "X")]] [⟨"Name", "sheet", 0⟩] = .ok [[some "X"]] ∧
    extractAllColumns (some [["Name"]]) [[("name", "X")]] =
      [⟨"Name", "sheet", 0⟩, ⟨"name", "sheet", 1⟩] :=
  columnMatching_caseInsensitivity "X" "name" "Name" (by decide) (by decide)

/-- C5 counterexample: the claim says the `dataToCells` error lists every
known column name; a column whose name is the empty string is a known
column, yet the error's enumerated names (`columns.filter(c => c.name)`)
omit it. -/
theorem dataToCells_emptyName_cex :
    dataToCells [[("B", "x")]] [⟨"", "sheet", 0⟩, ⟨"A", "sheet", 1⟩] =
      .error (.unexpectedKey "B" ["A"]) ∧
    ("" : String) ∈ ([⟨"", "sheet", 0⟩, ⟨"A", "sheet", 1⟩] :
      List SheetColumn).map (fun c => c.name) ∧
    ("" : String) ∉ (["A"] : List String) :=
  ⟨rfl, by decide, by decide⟩

/-- C5 amended: over a non-empty column list, `dataToCells` fails whenever
some record contains a key with no case-insensitive column match, and the
error enumerates every known column name **whose name is non-empty**
(empty-named columns are dropped by the JavaScript truthiness filter);
over an empty column list no validation happens and each record's values
are emitted in encountered key order. -/
theorem dataToCells_unmatchedKey (α : Type) (data : List (JsRec α))
    (cols : List SheetColumn) (hcols : cols ≠ [])
    (hbad : ∃ r ∈ data, ∃ p ∈ r, ∀ c ∈ cols, ¬ jsToLower c.name = jsToLower p.1) :
    (∃ k, dataToCells data cols =
        .error (.unexpectedKey k (expectedNames cols)) ∧
      ∀ c ∈ cols, c.name ≠ "" → c.name ∈ expectedNames cols) ∧
    (∀ data2 : List (JsRec α), dataToCells data2 ([] : List SheetColumn) =
      .ok (data2.map (fun r => r.map (fun p => some p.2)))) := by
  constructor
  · obtain ⟨k, hk⟩ := dataToCells_error_of_unmatched cols hcols data hbad
    refine ⟨k, hk, ?_⟩
    intro c hc hne
    exact List.mem_map.mpr
      ⟨c, List.mem_filter.mpr ⟨hc, by simp [hne]⟩, rfl⟩
  · exact dataToCells_empty_cols

/-- C5 amended, instantiated: an unmatched key `"B"` against the single
column `"A"` errors listing `"A"`, and the empty column list performs no
validation. -/
theorem dataToCells_unmatchedKey_witness :
    (∃ k, dataToCells [[("B", "x")]] [⟨"A", "sheet", 0⟩] =
        .error (.unexpectedKey k (expectedNames [⟨"A", "sheet", 0⟩])) ∧
      ∀ c ∈ ([⟨"A", "sheet", 0⟩] : List SheetColumn), c.name ≠ "" →
        c.name ∈ expectedNames [⟨"A", "sheet", 0⟩]) ∧
    (∀ data2 : List (JsRec String), dataToCells data2 ([] : List SheetColumn) =
      .ok (data2.map (fun r => r.map (fun p => some p.2)))) :=
  dataToCells_unmatchedKey String [[("B", "x")]] [⟨"A", "sheet", 0⟩]
    (by decide) (by decide)

/-- C6: the claim (and the repository's test "extract a header from the
1st row: 1st row is empty") says an empty/absent header-row fetch under
mandatory extraction fails with the "row N doesn't have a header" error.
The code honours this only for an *absent* result (`values` undefined):
for an empty array the JavaScript guard `!values` is false (`[]` is
truthy), so `values[0].forEach` crashes with a `TypeError` instead. -/
theorem extractSheetColumns_missingHeader :
    extractSheetColumns (some 1) none =
      .error (.integration "The specifed row number(1) doesn't have a header.") ∧
    (readFromSpreadsheet specA1 (fun _ => none) "sheetTitle" true
        .FORMATTED_VALUE none) =
      (.error (.integration "The specifed row number(1) doesn't have a header."),
        ["sheetTitle!A1:ZZZ10000000"]) ∧
    extractSheetColumns (some 1) (some []) = .error .typeError :=
  ⟨rfl, rfl, rfl⟩

/-- C10: when the column list used by project-to-records contains
duplicate names, the projected record maps a name to the value of the
last (highest-indexed) present cell whose column carries that name —
formally, reading any name out of a projected record equals the
last-write-wins scan `lastValueFor` over the grid row; concretely, with
columns named `A`,`B`,`B` a three-cell row projects to a two-key record
whose `B` holds the third cell. -/
theorem projectToRecords_duplicate_lastWins :
    (∀ (α : Type) (fmt : GoogleSheetsFormatType) (cols : List SheetColumn)
      (off : Nat) (grid : List (List (Option α))) (i : Nat)
      (row : List (Option α)) (n : String), grid.get? i = some row →
      ((sheetDataToRecordSet grid fmt cols off).get? i).map
          (fun rec => jsGet rec n) =
        some (lastValueFor cols off n row)) ∧
    sheetDataToRecordSet [[some "x", some "y", some "z"]] .FORMATTED_VALUE
      [⟨"A", "sheet", 0⟩, ⟨"B", "sheet", 1⟩, ⟨"B", "sheet", 2⟩] 0 =
      [[("A", "x"), ("B", "z")]] := by
  constructor
  · intro α fmt cols off grid i row n hrow
    unfold sheetDataToRecordSet
    rw [List.get?_map, hrow, Option.map_map]
    simp only [Option.map_some', Function.comp]
    congr 1
    rw [jsGet_projRowAux_lastValue]
    unfold lastValueFor
    cases lastValueForAux cols off n row 0 none <;> rfl
  · rfl

/-- C10, instantiated: the general last-write-wins reading applied to the
duplicate-named column list at the concrete one-row grid. -/
theorem projectToRecords_duplicate_lastWins_witness :
    ((sheetDataToRecordSet [[some "x", some "y", some "z"]] .FORMATTED_VALUE
        [⟨"A", "sheet", 0⟩, ⟨"B", "sheet", 1⟩, ⟨"B", "sheet", 2⟩] 0).get? 0).map
      (fun rec => jsGet rec "B") =
      some (lastValueFor [⟨"A", "sheet", 0⟩, ⟨"B", "sheet", 1⟩, ⟨"B", "sheet", 2⟩]
        0 "B" [some "x", some "y", some "z"]) :=
  projectToRecords_duplicate_lastWins.1 String .FORMATTED_VALUE
    [⟨"A", "sheet", 0⟩, ⟨"B", "sheet", 1⟩, ⟨"B", "sheet", 2⟩] 0
    [[some "x", some "y", some "z"]] 0 [some "x", some "y", some "z"] "B" rfl

/-- C3 counterexample: the claim says every Read-Range whose range parses
but does not round-trip is rejected with no data fetch, regardless of
header extraction.  With extraction off the code only runs `A1.isValid`:
the non-canonical range `"a1:D4"` (serializing to `"A1:D4"`) is accepted
and fetched verbatim. -/
theorem readRange_nonCanonical_headerOff_cex :
    (specA1.parse "a1:D4").map specA1.toStr = some "A1:D4" ∧
    ("a1:D4" : String) ≠ "A1:D4" ∧
    readSpreadsheetRange specA1
      (fun r => if r == "sheetTitle!A1:ZZZ10000000" then some [["H"]]
        else if r == "sheetTitle!a1:D4" then some [["x"]] else none)
      "sheetTitle" false .FORMATTED_VALUE (some "a1:D4") =
      (.ok [[("H", "x")]],
        ["sheetTitle!A1:ZZZ10000000", "sheetTitle!a1:D4"]) :=
  ⟨rfl, by decide, rfl⟩

/-- C3 amended: the round-trip rejection applies only when header
extraction is requested: then a parseable range whose re-serialization
differs from the input is rejected with the error naming the provided
range, and no data fetch is issued (only the earlier header fetch
happened).  With extraction off, only syntactic validity is checked and
the range is passed to the fetch verbatim. -/
theorem readRange_roundTrip_reject (a1 : A1Lib)
    (fetch : String → Option (List (List String))) (sheetTitle : String)
    (format : GoogleSheetsFormatType) (range : String) (rng : A1Rng)
    (v0 : List String) (vs : List (List String))
    (hparse : a1.parse range = some rng)
    (hneq : a1.toStr rng ≠ range)
    (hfetch : fetch (headerFetchRange sheetTitle) = some (v0 :: vs)) :
    readSpreadsheetRange a1 fetch sheetTitle true format (some range) =
      (.error (.integration ("The provided range " ++ range ++ " is invalid")),
        [headerFetchRange sheetTitle]) := by
  have hvalid : a1.isValid range = true := by
    simp [A1Lib.isValid, hparse]
  have hbne : (range != a1.toStr rng) = true := by
    simp [bne]
    exact fun h => hneq h.symm
  unfold readSpreadsheetRange readFromSpreadsheet
  simp only [hvalid, Bool.not_true, Bool.false_eq_true, if_false, if_true,
    hfetch, extractSheetColumns, hparse, hbne]

/-- C4 counterexample: two records whose keys differ only by case,
`[{a:"1"},{A:"2"}]`, derive columns `a`,`A`; the case-insensitive
first-match placement sends the second record's value to column `a`, so
the round trip returns `{a:"2"}` — the key `A` no longer maps to its
original value and the extra key `a` appears. -/
theorem roundTrip_caseCollision_cex :
    dataToCells [[("a", "1")], [("A", "2")]]
        (extractDataColumns [[("a", "1")], [("A", "2")]]) =
      .ok [[some "1"], [some "2"]] ∧
    sheetDataToRecordSet [[some "1"], [some "2"]] .FORMATTED_VALUE
        (extractDataColumns [[("a", "1")], [("A", "2")]]) 0 =
      [[("a", "1")], [("a", "2")]] ∧
    jsGet [("a", "2")] "A" ≠ jsGet [("A", "2")] "A" :=
  ⟨rfl, rfl, by decide⟩

/-- C4 amended: for every ordered sequence of records of scalar values
whose field names are pairwise case-insensitively distinct (no two
different keys are equal ignoring case), projecting them to a grid with
the from-data columns and back reproduces the original records: same
length, and every key reads the same value (absent keys read absent). -/
theorem dataToCells_roundTrip (α : Type) (fmt : GoogleSheetsFormatType)
    (data : List (JsRec α))
    (hnd : ∀ r ∈ data, (r.map Prod.fst).Nodup)
    (hci : ∀ k1 ∈ collectKeys data, ∀ k2 ∈ collectKeys data,
      jsToLower k1 = jsToLower k2 → k1 = k2) :
    ∃ cells, dataToCells data (extractDataColumns data) = .ok cells ∧
      List.Forall₂ (fun rec orig => ∀ k, jsGet rec k = jsGet orig k)
        (sheetDataToRecordSet cells fmt (extractDataColumns data) 0) data := by
  rw [extractDataColumns_eq]
  have hsub : ∀ r ∈ data, ∀ p ∈ r, p.1 ∈ collectKeys data := by
    intro r hr p hp
    rw [mem_collectKeys]
    exact ⟨r, hr, List.mem_map.mpr ⟨p, hp, rfl⟩⟩
  have hinj : ∀ r ∈ data, ∀ p ∈ r, ∀ n' ∈ collectKeys data,
      jsToLower n' = jsToLower p.1 → n' = p.1 := by
    intro r hr p hp n' hn' hlow
    exact hci n' hn' p.1 (hsub r hr p hp) hlow
  exact ⟨data.map (fun r => setFold (collectKeys data) r []),
    dataToCells_map_ok (collectKeys data) data hsub hinj,
    roundTrip_core fmt (collectKeys data) (nodup_collectKeys data) data hnd hsub⟩

/-- C4 amended, instantiated: the round trip at two records with
differing key sets, `[{a:"1",b:"2"},{b:"3"}]`. -/
theorem dataToCells_roundTrip_witness :
    ∃ cells, dataToCells [[("a", "1"), ("b", "2")], [("b", "3")]]
        (extractDataColumns [[("a", "1"), ("b", "2")], [("b", "3")]]) =
          .ok cells ∧
      List.Forall₂ (fun rec orig => ∀ k, jsGet rec k = jsGet orig k)
        (sheetDataToRecordSet cells .FORMATTED_VALUE
          (extractDataColumns [[("a", "1"), ("b", "2")], [("b", "3")]]) 0)
        [[("a", "1"), ("b", "2")], [("b", "3")]] :=
  dataToCells_roundTrip String .FORMATTED_VALUE
    [[("a", "1"), ("b", "2")], [("b", "3")]] (by decide) (by decide)

/-- C7: a Read-Range with header extraction whose (round-trip-stable)
range starts at row 1 with height exactly 1 returns the empty record
sequence, and the only remote fetch issued is the header fetch — no data
fetch happens for the degenerate adjusted range. -/
theorem readRange_header_row1_height1_empty (a1 : A1Lib)
    (fetch : String → Option (List (List String))) (sheetTitle : String)
    (format : GoogleSheetsFormatType) (range : String) (rng : A1Rng)
    (v0 : List String) (vs : List (List String))
    (hparse : a1.parse range = some rng)
    (hrt : a1.toStr rng = range)
    (hrow : rng.getRow = 1) (hheight : rng.getHeight = 1)
    (hfetch : fetch (headerFetchRange sheetTitle) = some (v0 :: vs)) :
    readSpreadsheetRange a1 fetch sheetTitle true format (some range) =
      (.ok [], [headerFetchRange sheetTitle]) := by
  have hvalid : a1.isValid range = true := by
    simp [A1Lib.isValid, hparse]
  have hbne : (range != a1.toStr rng) = false := by
    simp [bne, hrt]
  have hcheck : (rng.getHeight == 1 && rng.getRow == 1) = true := by
    simp [hrow, hheight]
  unfold readSpreadsheetRange readFromSpreadsheet
  simp only [hvalid, Bool.not_true, Bool.false_eq_true, if_false, if_true,
    hfetch, extractSheetColumns, hparse, hbne, hcheck]
  rfl

/-- C7, instantiated: range `"A1:D1"` under the spec-modelled range
library, with a non-empty header row. -/
theorem readRange_header_row1_height1_empty_witness :
    readSpreadsheetRange specA1
      (fun r => if r == "sheetTitle!A1:ZZZ10000000" then some [["H"]] else none)
      "sheetTitle" true .FORMATTED_VALUE (some "A1:D1") =
      (.ok [], [headerFetchRange "sheetTitle"]) :=
  readRange_header_row1_height1_empty specA1
    (fun r => if r == "sheetTitle!A1:ZZZ10000000" then some [["H"]] else none)
    "sheetTitle" .FORMATTED_VALUE "A1:D1" ⟨1, 1, 4, 1⟩ ["H"] []
    rfl rfl rfl rfl rfl

/-- C8: Create-Rows with the Append destination computes
`rows = max(existing row count, header row number)` and appends the
projected grid at row `rows + 1` (the constructed destination range is
`A(rows+1):ZZZ(rows+1)`); when a header is requested, the header row —
the merge of the fetched header columns with the record keys — is
written at the header row number. -/
theorem doAppend_destination (fetch : String → Option (List (List String)))
    (sheetTitle : String) (jsonData : List (JsRec String))
    (headerRowNumber : Nat) (includeHeaderRow : Bool)
    (dest : String) (rowsData : List (List (Option String)))
    (log : List RemoteCall)
    (h : doAppend fetch sheetTitle jsonData headerRowNumber includeHeaderRow =
      (.ok (dest, rowsData), log)) :
    dest = sheetTitle ++ "!A" ++
        toString (Nat.max
          ((fetch (sheetTitle ++ "!A1:" ++ MAX_A1_RANGE)).getD []).length
          headerRowNumber + 1) ++ ":" ++ MAX_COLUMN ++
        toString (Nat.max
          ((fetch (sheetTitle ++ "!A1:" ++ MAX_A1_RANGE)).getD []).length
          headerRowNumber + 1) ∧
    RemoteCall.append dest rowsData ∈ log ∧
    (includeHeaderRow = true →
      RemoteCall.update
        (sheetTitle ++ "!A" ++ toString headerRowNumber ++ ":" ++ MAX_COLUMN ++
          toString headerRowNumber)
        [(extractAllColumns
            (fetch (sheetTitle ++ "!A" ++ toString headerRowNumber ++ ":" ++
              MAX_COLUMN ++ toString headerRowNumber)) jsonData).map
          (fun c => c.name)] ∈ log) := by
  unfold doAppend at h
  cases includeHeaderRow with
  | true =>
    simp only [if_true] at h
    cases hdc : dataToCells jsonData
        (extractAllColumns
          (fetch (sheetTitle ++ "!A" ++ toString headerRowNumber ++ ":" ++
            MAX_COLUMN ++ toString headerRowNumber)) jsonData) with
    | error e =>
      rw [hdc] at h
      simp at h
    | ok rows =>
      rw [hdc] at h
      simp only [Prod.mk.injEq, Except.ok.injEq] at h
      obtain ⟨⟨hdest, hrows⟩, hlog⟩ := h
      refine ⟨hdest.symm, ?_, ?_⟩
      · rw [← hlog, ← hdest, ← hrows]
        simp
      · intro _
        rw [← hlog]
        simp
  | false =>
    simp only [Bool.false_eq_true, if_false] at h
    cases hdc : dataToCells jsonData (extractDataColumns jsonData) with
    | error e =>
      rw [hdc] at h
      simp at h
    | ok rows =>
      rw [hdc] at h
      simp only [Prod.mk.injEq, Except.ok.injEq] at h
      obtain ⟨⟨hdest, hrows⟩, hlog⟩ := h
      refine ⟨hdest.symm, ?_, ?_⟩
      · rw [← hlog, ← hdest, ← hrows]
        simp
      · intro hcontr
        exact Bool.noConfusion hcontr

/-- C8, instantiated: the repository test's append scenario — a four-row
sheet with header `Subname, ACI`, appending one record with a header
write requested lands the data at `A5:ZZZ5` and rewrites the header at
row 1. -/
theorem doAppend_destination_witness :
    ("sheetTitle!A5:ZZZ5" : String) = "sheetTitle" ++ "!A" ++
        toString (Nat.max
          (((fun r => if r == "sheetTitle!A1:ZZZ10000000"
              then some [["Subname", "ACI"], ["Butterfly", "57"],
                ["Lion", "23"], ["Phoenix", "56"]]
              else if r == "sheetTitle!A1:ZZZ1" then some [["Subname", "ACI"]]
              else none) ("sheetTitle" ++ "!A1:" ++ MAX_A1_RANGE)).getD
            []).length 1 + 1) ++ ":" ++ MAX_COLUMN ++
        toString (Nat.max
          (((fun r => if r == "sheetTitle!A1:ZZZ10000000"
              then some [["Subname", "ACI"], ["Butterfly", "57"],
                ["Lion", "23"], ["Phoenix", "56"]]
              else if r == "sheetTitle!A1:ZZZ1" then some [["Subname", "ACI"]]
              else none) ("sheetTitle" ++ "!A1:" ++ MAX_A1_RANGE)).getD
            []).length 1 + 1) ∧
    RemoteCall.append "sheetTitle!A5:ZZZ5" [[some "Honeybadger", some "489"]] ∈
      [RemoteCall.get "sheetTitle!A1:ZZZ10000000",
        RemoteCall.get "sheetTitle!A1:ZZZ1", RemoteCall.clear "sheetTitle!A1:ZZZ1",
        RemoteCall.update "sheetTitle!A1:ZZZ1" [["Subname", "ACI"]],
        RemoteCall.append "sheetTitle!A5:ZZZ5"
          [[some "Honeybadger", some "489"]]] :=
  ⟨(doAppend_destination
      (fun r => if r == "sheetTitle!A1:ZZZ10000000"
        then some [["Subname", "ACI"], ["Butterfly", "57"], ["Lion", "23"],
          ["Phoenix", "56"]]
        else if r == "sheetTitle!A1:ZZZ1" then some [["Subname", "ACI"]]
        else none)
      "sheetTitle" [[("Subname", "Honeybadger"), ("ACI", "489")]] 1 true
      "sheetTitle!A5:ZZZ5" [[some "Honeybadger", some "489"]]
      [RemoteCall.get "sheetTitle!A1:ZZZ10000000",
        RemoteCall.get "sheetTitle!A1:ZZZ1", RemoteCall.clear "sheetTitle!A1:ZZZ1",
        RemoteCall.update "sheetTitle!A1:ZZZ1" [["Subname", "ACI"]],
        RemoteCall.append "sheetTitle!A5:ZZZ5"
          [[some "Honeybadger", some "489"]]] rfl).1,
    (doAppend_destination
      (fun r => if r == "sheetTitle!A1:ZZZ10000000"
        then some [["Subname", "ACI"], ["Butterfly", "57"], ["Lion", "23"],
          ["Phoenix", "56"]]
        else if r == "sheetTitle!A1:ZZZ1" then some [["Subname", "ACI"]]
        else none)
      "sheetTitle" [[("Subname", "Honeybadger"), ("ACI", "489")]] 1 true
      "sheetTitle!A5:ZZZ5" [[some "Honeybadger", some "489"]]
      [RemoteCall.get "sheetTitle!A1:ZZZ10000000",
        RemoteCall.get "sheetTitle!A1:ZZZ1", RemoteCall.clear "sheetTitle!A1:ZZZ1",
        RemoteCall.update "sheetTitle!A1:ZZZ1" [["Subname", "ACI"]],
        RemoteCall.append "sheetTitle!A5:ZZZ5"
          [[some "Honeybadger", some "489"]]] rfl).2.1⟩

/-- C9: every column list produced by the three resolution strategies —
from-data (`extractDataColumns`), from-header (`extractSheetColumns`,
when it succeeds) and merge (`extractAllColumns`) — places each column at
the array position its `sourceColumnIndex` names:
`columns[i].sourceColumnIndex = i`. -/
theorem columns_sourceColumnIndex (α : Type) :
    (∀ (data : List (JsRec α)) (i : Nat) (c : SheetColumn),
      (extractDataColumns data).get? i = some c → c.sourceColumnIndex = i) ∧
    (∀ (hrn : Option Nat) (values : Option (List (List String)))
      (cols : List SheetColumn), extractSheetColumns hrn values = .ok cols →
      ∀ (i : Nat) (c : SheetColumn), cols.get? i = some c →
        c.sourceColumnIndex = i) ∧
    (∀ (values : Option (List (List String))) (jsonData : List (JsRec α))
      (i : Nat) (c : SheetColumn),
      (extractAllColumns values jsonData).get? i = some c →
        c.sourceColumnIndex = i) := by
  refine ⟨?_, ?_, ?_⟩
  · intro data i c h
    rw [extractDataColumns_eq, mkColsFrom_get?] at h
    cases hk : (collectKeys data).get? i with
    | none => rw [hk] at h; exact Option.noConfusion h
    | some k =>
      rw [hk] at h
      rw [← Option.some.inj h]
      simp
  · intro hrn values cols h i c hc
    unfold extractSheetColumns at h
    cases values with
    | none =>
      by_cases hs : hrn.isSome
      · rw [if_pos hs] at h
        exact Except.noConfusion h
      · rw [if_neg hs] at h
        have he := Except.ok.inj h
        rw [← he] at hc
        simp at hc
    | some vs =>
      cases vs with
      | nil => exact Except.noConfusion h
      | cons v0 vrest =>
        have he := Except.ok.inj h
        rw [← he] at hc
        exact sourceIdx_pushFold v0 i c hc
  · intro values jsonData i c h
    have istep_pres : ∀ (st : List SheetColumn × Nat) (p : String × α),
        colState st →
        colState (if (st.1.find? (fun column => column.name == p.1)).isSome
          then st else (st.1 ++ [⟨p.1, "sheet", st.2⟩], st.2 + 1)) := by
      intro st p hst
      by_cases hf : (st.1.find? (fun column => column.name == p.1)).isSome
      · rw [if_pos hf]
        exact hst
      · rw [if_neg hf]
        exact colState_pushMissing st p.1 hst
    have row_pres : ∀ (st : List SheetColumn × Nat) (row : JsRec α),
        colState st →
        colState (row.foldl (fun st p =>
          if (st.1.find? (fun column => column.name == p.1)).isSome then st
          else (st.1 ++ [⟨p.1, "sheet", st.2⟩], st.2 + 1)) st) :=
      fun st row hst => foldl_preserve colState _ istep_pres row st hst
    have main : ∀ (cols0 : List SheetColumn),
        (∀ (i : Nat) (c : SheetColumn), cols0.get? i = some c →
          c.sourceColumnIndex = i) →
        ∀ (i : Nat) (c : SheetColumn),
          (jsonData.foldl (fun st row => row.foldl (fun st p =>
              if (st.1.find? (fun column => column.name == p.1)).isSome then st
              else (st.1 ++ [⟨p.1, "sheet", st.2⟩], st.2 + 1)) st)
            (cols0, cols0.length)).1.get? i = some c →
            c.sourceColumnIndex = i := by
      intro cols0 h0 i c hc
      have hcs := foldl_preserve colState _ row_pres jsonData
        (cols0, cols0.length) ⟨rfl, h0⟩
      exact hcs.2 i c hc
    unfold extractAllColumns at h
    cases values with
    | none => exact main [] (by intro i' c' hc'; simp at hc') i c h
    | some vs =>
      cases hv : vs.length == 1 with
      | true =>
        simp only [hv, if_true] at h
        exact main ((vs.getD 0 []).foldl pushColumn [])
          (sourceIdx_pushFold (vs.getD 0 [])) i c h
      | false =>
        simp only [hv, Bool.false_eq_true, if_false] at h
        exact main [] (by intro i' c' hc'; simp at hc') i c h

/-- C9, instantiated: positions check out on a from-data list, a
from-header list and a merge list at concrete inputs. -/
theorem columns_sourceColumnIndex_witness :
    ((extractDataColumns [[("a", "1"), ("b", "2")]]).get? 1 =
        some ⟨"b", "sheet", 1⟩ →
      (⟨"b", "sheet", 1⟩ : SheetColumn).sourceColumnIndex = 1) ∧
    (extractSheetColumns (some 1) (some [["H", "I"]]) =
        .ok [⟨"H", "sheet", 0⟩, ⟨"I", "sheet", 1⟩] →
      ([⟨"H", "sheet", 0⟩, ⟨"I", "sheet", 1⟩] :
          List SheetColumn).get? 1 = some ⟨"I", "sheet", 1⟩ →
      (⟨"I", "sheet", 1⟩ : SheetColumn).sourceColumnIndex = 1) ∧
    ((extractAllColumns (some [["Name"]]) [[("name", "X")]]).get? 1 =
        some ⟨"name", "sheet", 1⟩ →
      (⟨"name", "sheet", 1⟩ : SheetColumn).sourceColumnIndex = 1) :=
  ⟨fun h => (columns_sourceColumnIndex String).1 [[("a", "1"), ("b", "2")]]
      1 ⟨"b", "sheet", 1⟩ h,
    fun h1 h2 => (columns_sourceColumnIndex String).2.1 (some 1)
      (some [["H", "I"]]) [⟨"H", "sheet", 0⟩, ⟨"I", "sheet", 1⟩] h1 1
      ⟨"I", "sheet", 1⟩ h2,
    fun h => (columns_sourceColumnIndex String).2.2 (some [["Name"]])
      [[("name", "X")]] 1 ⟨"name", "sheet", 1⟩ h⟩

/-- C3 amended, instantiated: under the spec-modelled range library the
non-canonical but parseable `"a1:D4"` with header extraction on is
rejected naming the range, after only the header fetch. -/
theorem readRange_roundTrip_reject_witness :
    readSpreadsheetRange specA1
      (fun r => if r == "sheetTitle!A1:ZZZ10000000" then some [["H"]]
        else if r == "sheetTitle!a1:D4" then some [["x"]] else none)
      "sheetTitle" true .FORMATTED_VALUE (some "a1:D4") =
      (.error (.integration ("The provided range " ++ "a1:D4" ++ " is invalid")),
        [headerFetchRange "sheetTitle"]) :=
  readRange_roundTrip_reject specA1
    (fun r => if r == "sheetTitle!A1:ZZZ10000000" then some [["H"]]
      else if r == "sheetTitle!a1:D4" then some [["x"]] else none)
    "sheetTitle" .FORMATTED_VALUE "a1:D4" ⟨1, 1, 4, 4⟩ ["H"] []
    rfl (by decide) rfl

end GSheets
